import Mathlib

/-!
# Verification of the moving-average crossover trading loop

Shallow embedding of the core of the repository (src/common_algos/ema.py,
src/common_algos/sma.py): the indicator engine (EMA, SMA), the crossover
signal conditions of each script's `main`, and the position-gated order
decision. Prices are modelled as exact rationals; the undefined (NaN)
leading entries of a rolling SMA are modelled as `none`, with float
comparisons against NaN returning `false`, as in Python.
-/

set_option autoImplicit false

namespace Algos

/-- Order side, as passed to `place_order` ('buy' / 'sell'). -/
inductive Side where
  | buy : Side
  | sell : Side
deriving DecidableEq

/-- Crossover event vocabulary of the specification's detector. -/
inductive CrossEvent where
  | none : CrossEvent
  | bullish : CrossEvent
  | bearish : CrossEvent
deriving DecidableEq

/-! ## Indicator engine -/

/-- The tail of pandas `ewm(span=window, adjust=False).mean()`: given the
previous smoothed value `prev`, each new close `c` yields
`α*c + (1-α)*prev`. Used by `calculate_ema` below. -/
def emaRec (a : ℚ) : ℚ → List ℚ → List ℚ
  | _, [] => []
  | prev, c :: cs =>
    let e := a * c + (1 - a) * prev
    e :: emaRec a e cs

/-- `calculate_ema` of ema.py: `df['close'].ewm(span=window, adjust=False).mean()`.
With `adjust=False` pandas seeds with the first close and then applies the
recurrence with `α = 2/(window+1)`. Returns the ema column. -/
def calculate_ema (closes : List ℚ) (window : ℕ) : List ℚ :=
  match closes with
  | [] => []
  | c :: cs => c :: emaRec (2 / (window + 1)) c cs

/-- Entry `i` of a pandas rolling mean: the mean of the last `window`
elements among the first `i+1` when that many exist, NaN (here `none`)
otherwise. -/
def sma_entry (closes : List ℚ) (window i : ℕ) : Option ℚ :=
  if window ≤ i + 1 then
    some ((((closes.take (i + 1)).drop (i + 1 - window)).sum) / window)
  else
    Option.none

/-- `calculate_sma` of sma.py: `df['close'].rolling(window=window).mean()`.
Returns the sma column. -/
def calculate_sma (closes : List ℚ) (window : ℕ) : List (Option ℚ) :=
  (List.range closes.length).map (sma_entry closes window)

/-! ## Float comparisons with NaN

A pandas column read with `iloc` yields floats, and a rolling mean's
leading entries are NaN. Every Python comparison against NaN is `False`;
`none` plays the role of NaN. -/

/-- Python `x > y` on possibly-NaN floats. -/
def fgt : Option ℚ → Option ℚ → Bool
  | some x, some y => decide (y < x)
  | _, _ => false

/-- Python `x < y` on possibly-NaN floats. -/
def flt : Option ℚ → Option ℚ → Bool
  | some x, some y => decide (x < y)
  | _, _ => false

/-- Python `x <= y` on possibly-NaN floats. -/
def fle : Option ℚ → Option ℚ → Bool
  | some x, some y => decide (x ≤ y)
  | _, _ => false

/-- Python `x >= y` on possibly-NaN floats. -/
def fge : Option ℚ → Option ℚ → Bool
  | some x, some y => decide (y ≤ x)
  | _, _ => false

/-! ## Crossover signal conditions -/

/-- ema.py line 150: `(current_ema_short > current_ema_long) and
(previous_ema_short <= previous_ema_long)`. -/
def ema_buy_signal (cs cl ps pl : ℚ) : Bool :=
  decide (cl < cs) && decide (ps ≤ pl)

/-- ema.py line 156: `(current_ema_short < current_ema_long) and
(previous_ema_short >= previous_ema_long)`. -/
def ema_sell_signal (cs cl ps pl : ℚ) : Bool :=
  decide (cs < cl) && decide (pl ≤ ps)

/-- sma.py line 179: `current_price > current_sma and previous_sma <= current_sma`.
Note: the previous close is never consulted. -/
def sma_buy_signal (price cur prev : Option ℚ) : Bool :=
  fgt price cur && fle prev cur

/-- sma.py line 186: `current_price < current_sma and previous_sma >= current_sma`. -/
def sma_sell_signal (price cur prev : Option ℚ) : Bool :=
  flt price cur && fge prev cur

/-! ## Position-gated order decision -/

/-- The order block shared by both scripts:
`if buy_signal and position == 0:` submit BUY of quantity 1,
`elif sell_signal and position > 0:` submit SELL of quantity 1,
`else:` no order. -/
def decide_order (buySig sellSig : Bool) (position : ℚ) : Option (Side × ℚ) :=
  if buySig = true ∧ position = 0 then some (Side.buy, 1)
  else if sellSig = true ∧ 0 < position then some (Side.sell, 1)
  else Option.none

/-- The pair of signal booleans a `CrossEvent` stands for: the detector's
buy and sell conditions are the scripts' `buy_signal` / `sell_signal`,
of which (provably) at most one holds in a cycle. -/
def event_signals : CrossEvent → Bool × Bool
  | CrossEvent.bullish => (true, false)
  | CrossEvent.bearish => (false, true)
  | CrossEvent.none => (false, false)

/-- The order block run on a classified crossover event. -/
def run_executor (e : CrossEvent) (position : ℚ) : Option (Side × ℚ) :=
  decide_order (event_signals e).1 (event_signals e).2 position

/-! ## One polling cycle of each script

`iloc[-1]` and `iloc[-2]` of a column are the last element and the last
element of `dropLast`. The cycle is skipped (no order) when the fetched
series is empty or shorter than the (long) window, exactly as in `main`. -/

/-- One cycle of sma.py `main` on fetched closes, the configured window and
the fetched position; returns the submitted order, if any. -/
def sma_cycle (closes : List ℚ) (window : ℕ) (position : ℚ) : Option (Side × ℚ) :=
  if closes.isEmpty then Option.none
  else
    let smaCol := calculate_sma closes window
    if closes.length < window then Option.none
    else
      let current_price : Option ℚ := closes.getLast?
      let current_sma : Option ℚ := smaCol.getLast?.getD Option.none
      let previous_sma : Option ℚ := smaCol.dropLast.getLast?.getD Option.none
      decide_order (sma_buy_signal current_price current_sma previous_sma)
        (sma_sell_signal current_price current_sma previous_sma) position

/-- One cycle of ema.py `main` on fetched closes, the configured short and
long windows and the fetched position; returns the submitted order, if any. -/
def ema_cycle (closes : List ℚ) (shortW longW : ℕ) (position : ℚ) : Option (Side × ℚ) :=
  if closes.isEmpty then Option.none
  else
    let s := calculate_ema closes shortW
    let l := calculate_ema closes longW
    if closes.length < longW then Option.none
    else
      let cs := s.getLastD 0
      let cl := l.getLastD 0
      let ps := s.dropLast.getLastD 0
      let pl := l.dropLast.getLastD 0
      decide_order (ema_buy_signal cs cl ps pl) (ema_sell_signal cs cl ps pl) position

/-- Modelled from the spec: the BULLISH condition of the Crossover
Detector for the price/SMA pair, in the spec's words: `A[t-1] ≤ B[t-1]`
AND `A[t] > B[t]` with A the price and B the SMA. Used to compare the
spec's detector with the implemented sma.py signal. -/
def spec_sma_bullish (pPrev sPrev pCur sCur : ℚ) : Bool :=
  decide (pPrev ≤ sPrev) && decide (sCur < pCur)

end Algos

namespace Algos

/-! ## Claims -/

/-- C1: the spec's crossover rule demands `A[t-1] ≤ B[t-1]` for BULLISH,
but the sma.py signal never consults the previous price. On closes
`[10, 10, 20, 30]` with window 2 the SMA column is
`[NaN, 10, 15, 25]`: the previous price 20 is strictly above the previous
SMA 15, so the spec's detector reports no bullish crossover, yet the
script's buy condition (`30 > 25 and 15 ≤ 25`) fires and a flat position
triggers a BUY order. -/
theorem sma_detector_ignores_previous_price :
    calculate_sma [10, 10, 20, 30] 2 = [Option.none, some 10, some 15, some 25] ∧
    spec_sma_bullish 20 15 30 25 = false ∧
    sma_buy_signal (some 30) (some 25) (some 15) = true ∧
    sma_cycle [10, 10, 20, 30] 2 0 = some (Side.buy, 1) := by
  refine ⟨?_, ?_, ?_, ?_⟩
  · norm_num [calculate_sma, sma_entry, List.range_succ]
  · norm_num [spec_sma_bullish]
  · norm_num [sma_buy_signal, fgt, fle]
  · norm_num [sma_cycle, calculate_sma, sma_entry, List.range_succ, sma_buy_signal,
      sma_sell_signal, fgt, fle, flt, fge, decide_order]

/-- C2: the position-gated executor follows the transition table: FLAT
(quantity = 0) with BULLISH submits exactly one BUY of the fixed quantity
1; LONG (quantity > 0) with BEARISH submits exactly one SELL of quantity
1; every other combination of {FLAT, LONG} state and event submits no
order. -/
theorem executor_transition_table (e : CrossEvent) (pos : ℚ) :
    (pos = 0 → e = CrossEvent.bullish → run_executor e pos = some (Side.buy, 1)) ∧
    (0 < pos → e = CrossEvent.bearish → run_executor e pos = some (Side.sell, 1)) ∧
    (pos = 0 → e ≠ CrossEvent.bullish → run_executor e pos = Option.none) ∧
    (0 < pos → e ≠ CrossEvent.bearish → run_executor e pos = Option.none) := by
  cases e <;>
    refine ⟨?_, ?_, ?_, ?_⟩ <;> intro h1 h2 <;>
      simp_all [run_executor, event_signals, decide_order]
  all_goals linarith

/-- Witness for C2: in the FLAT state a BULLISH event yields one BUY of
quantity 1. -/
theorem executor_transition_table_witness :
    run_executor CrossEvent.bullish 0 = some (Side.buy, 1) :=
  (executor_transition_table CrossEvent.bullish 0).1 rfl rfl

/-- C3: the buy and sell signal conditions are mutually exclusive on the
same pair of latest samples (for both the EMA/EMA and the price/SMA
scripts), and the shared order block issues at most one order: none, one
BUY of quantity 1, or one SELL of quantity 1. -/
theorem at_most_one_order (cs cl ps pl : ℚ) (price cur prev : Option ℚ)
    (b s : Bool) (pos : ℚ) :
    (ema_buy_signal cs cl ps pl && ema_sell_signal cs cl ps pl) = false ∧
    (sma_buy_signal price cur prev && sma_sell_signal price cur prev) = false ∧
    (decide_order b s pos = Option.none ∨ decide_order b s pos = some (Side.buy, 1) ∨
      decide_order b s pos = some (Side.sell, 1)) := by
  refine ⟨?_, ?_, ?_⟩
  · by_cases h : cl < cs
    · simp [ema_buy_signal, ema_sell_signal, asymm h]
    · simp [ema_buy_signal, h]
  · cases price with
    | none => simp [sma_buy_signal, sma_sell_signal, fgt, flt]
    | some p =>
      cases cur with
      | none => simp [sma_buy_signal, sma_sell_signal, fgt, flt]
      | some c =>
        by_cases h : c < p
        · simp [sma_buy_signal, sma_sell_signal, fgt, flt, asymm h]
        · simp [sma_buy_signal, fgt, h]
  · unfold decide_order
    split
    · exact Or.inr (Or.inl rfl)
    · split
      · exact Or.inr (Or.inr rfl)
      · exact Or.inl rfl

/-- C7: on an empty input series both indicator computations return an
empty column and are total (no exception path is modelled because none is
reachable: `ewm`/`rolling` of an empty column are empty). -/
theorem empty_series_empty_indicators (w : ℕ) :
    calculate_ema [] w = [] ∧ calculate_sma [] w = [] := by
  constructor
  · rfl
  · simp [calculate_sma]

/-- C8: the spec says a detector seeing unchanged samples on both ticks
reports NONE, but sma.py fires on static input: on closes
`[0, 3, 0, 3, 3]` with window 3 the SMA column is `[NaN, NaN, 1, 2, 2]`,
so the last two prices are both 3 and the last two SMA values are both 2
(nothing crossed), yet the buy condition (`3 > 2 and 2 ≤ 2`) fires and a
flat position triggers a BUY order. -/
theorem sma_detector_fires_on_static_input :
    calculate_sma [0, 3, 0, 3, 3] 3 = [Option.none, Option.none, some 1, some 2, some 2] ∧
    ([0, 3, 0, 3, 3] : List ℚ).getLast? = some 3 ∧
    ([0, 3, 0, 3, 3] : List ℚ).dropLast.getLast? = some 3 ∧
    sma_buy_signal (some 3) (some 2) (some 2) = true ∧
    sma_cycle [0, 3, 0, 3, 3] 3 0 = some (Side.buy, 1) := by
  refine ⟨?_, ?_, ?_, ?_, ?_⟩
  · norm_num [calculate_sma, sma_entry, List.range_succ]
  · rfl
  · rfl
  · norm_num [sma_buy_signal, fgt, fle]
  · norm_num [sma_cycle, calculate_sma, sma_entry, List.range_succ, sma_buy_signal,
      sma_sell_signal, fgt, fle, flt, fge, decide_order]

/-- C10: with a strictly negative fetched position (a short, unspecified
by the {FLAT, LONG} table) the order block submits nothing, whatever the
signals or the classified event: the buy branch requires quantity = 0 and
the sell branch requires quantity > 0. -/
theorem short_position_no_order (b s : Bool) (e : CrossEvent) (pos : ℚ)
    (hneg : pos < 0) :
    decide_order b s pos = Option.none ∧ run_executor e pos = Option.none := by
  have h0 : pos ≠ 0 := ne_of_lt hneg
  have h1 : ¬ 0 < pos := not_lt.mpr hneg.le
  constructor
  · simp [decide_order, h0, h1]
  · simp [run_executor, decide_order, h0, h1]

/-- Witness for C10: with both signals raised and a BULLISH event, a
position of -1 still yields no order. -/
theorem short_position_no_order_witness :
    decide_order true true (-1) = Option.none ∧
      run_executor CrossEvent.bullish (-1) = Option.none :=
  short_position_no_order true true CrossEvent.bullish (-1) (by norm_num)

/-- `emaRec` produces one smoothed value per close. -/
theorem emaRec_length (a : ℚ) : ∀ (prev : ℚ) (cs : List ℚ),
    (emaRec a prev cs).length = cs.length
  | _, [] => rfl
  | prev, c :: cs => by
    simp only [emaRec, List.length_cons]
    rw [emaRec_length]

/-- The recurrence satisfied entrywise by `emaRec` prefixed with its seed. -/
theorem emaRec_getD (a : ℚ) (cs : List ℚ) : ∀ (prev : ℚ) (i : ℕ),
    i + 1 < (prev :: emaRec a prev cs).length →
    (prev :: emaRec a prev cs).getD (i + 1) 0 =
      a * cs.getD i 0 + (1 - a) * (prev :: emaRec a prev cs).getD i 0 := by
  induction cs with
  | nil => intro prev i h; simp [emaRec] at h
  | cons c cs ih =>
    intro prev i h
    cases i with
    | zero => simp [emaRec]
    | succ j =>
      have h' : j + 1 < ((a * c + (1 - a) * prev) ::
          emaRec a (a * c + (1 - a) * prev) cs).length := by
        simpa [emaRec] using h
      simpa [emaRec] using ih (a * c + (1 - a) * prev) j h'

/-- C4: on a non-empty close series the EMA column has the input's
length, starts at the first close, and satisfies
`ema[i+1] = α·close[i+1] + (1-α)·ema[i]` with `α = 2/(window+1)`. -/
theorem calculate_ema_spec (closes : List ℚ) (w : ℕ) (hne : closes ≠ []) :
    (calculate_ema closes w).length = closes.length ∧
    (calculate_ema closes w).head? = closes.head? ∧
    ∀ i : ℕ, i + 1 < closes.length →
      (calculate_ema closes w).getD (i + 1) 0 =
        (2 : ℚ) / ((w : ℚ) + 1) * closes.getD (i + 1) 0 +
          (1 - (2 : ℚ) / ((w : ℚ) + 1)) * (calculate_ema closes w).getD i 0 := by
  match closes with
  | [] => exact absurd rfl hne
  | c :: cs =>
    refine ⟨?_, ?_, ?_⟩
    · simp [calculate_ema, emaRec_length]
    · simp [calculate_ema]
    · intro i h
      have hlen : i + 1 < (c :: emaRec (2 / (w + 1)) c cs).length := by
        simpa [emaRec_length] using h
      simpa [calculate_ema] using emaRec_getD (2 / (w + 1)) cs c i hlen

/-- Witness for C4 at closes `[10, 12, 11]` and window 2. -/
theorem calculate_ema_spec_witness :
    ([10, 12, 11] : List ℚ) ≠ [] ∧
    ((calculate_ema [10, 12, 11] 2).length = ([10, 12, 11] : List ℚ).length ∧
     (calculate_ema [10, 12, 11] 2).head? = ([10, 12, 11] : List ℚ).head? ∧
     ∀ i : ℕ, i + 1 < ([10, 12, 11] : List ℚ).length →
       (calculate_ema [10, 12, 11] 2).getD (i + 1) 0 =
         (2 : ℚ) / (((2 : ℕ) : ℚ) + 1) * ([10, 12, 11] : List ℚ).getD (i + 1) 0 +
           (1 - (2 : ℚ) / (((2 : ℕ) : ℚ) + 1)) * (calculate_ema [10, 12, 11] 2).getD i 0) :=
  ⟨by simp, calculate_ema_spec [10, 12, 11] 2 (by simp)⟩

/-- The sum of the first `k` entries of a list, written through indexed
access. -/
theorem sum_take_eq_range_sum (ys : List ℚ) : ∀ k : ℕ, k ≤ ys.length →
    (ys.take k).sum = ((List.range k).map fun j => ys.getD j 0).sum := by
  intro k
  induction k with
  | zero => intro h; simp
  | succ n ih =>
    intro h
    have hn : n < ys.length := h
    rw [List.take_succ, List.range_succ, List.map_append, List.sum_append, List.sum_append,
      ih hn.le]
    simp [List.getD_eq_getElem?_getD, List.getElem?_eq_getElem hn]

/-- The sum of a contiguous slice, written through indexed access. -/
theorem sum_slice_eq_range_sum (xs : List ℚ) (a k : ℕ) (h : a + k ≤ xs.length) :
    ((xs.take (a + k)).drop a).sum =
      ((List.range k).map fun j => xs.getD (a + j) 0).sum := by
  rw [List.drop_take]
  have h2 : a + k - a = k := by omega
  rw [h2, sum_take_eq_range_sum (xs.drop a) k (by rw [List.length_drop]; omega)]
  refine congrArg List.sum (List.map_congr_left ?_)
  intro j hj
  simp [List.getD_eq_getElem?_getD, List.getElem?_drop]

/-- C5: for window `w ≥ 1`, the SMA column at index `i` is the arithmetic
mean of the `w` closes at indices `i-w+1 .. i` when `i ≥ w-1`, and is
undefined (NaN, here `none`) when `i < w-1`. -/
theorem calculate_sma_spec (closes : List ℚ) (w i : ℕ) (_hw : 1 ≤ w)
    (hi : i < closes.length) :
    (w ≤ i + 1 → (calculate_sma closes w).getD i Option.none =
        some ((((List.range w).map fun j => closes.getD (i + 1 - w + j) 0).sum) / (w : ℚ))) ∧
    (i + 1 < w → (calculate_sma closes w).getD i Option.none = Option.none) := by
  have hval : (calculate_sma closes w).getD i Option.none = sma_entry closes w i := by
    unfold calculate_sma
    rw [List.getD_eq_getElem?_getD, List.getElem?_map,
      List.getElem?_range (by simpa using hi)]
    rfl
  constructor
  · intro hwle
    rw [hval]
    unfold sma_entry
    rw [if_pos hwle]
    have hik : i + 1 - w + w = i + 1 := by omega
    have hsum := sum_slice_eq_range_sum closes (i + 1 - w) w (by omega)
    rw [hik] at hsum
    rw [hsum]
  · intro hlt
    rw [hval]
    unfold sma_entry
    rw [if_neg (by omega)]

/-- Witness for C5: on closes `[10, 10, 20, 30]` with window 2 the SMA is
defined at index 3 (mean 25) and undefined at index 0. -/
theorem calculate_sma_spec_witness :
    (calculate_sma [10, 10, 20, 30] 2).getD 3 Option.none = some 25 ∧
    (calculate_sma [10, 10, 20, 30] 2).getD 0 Option.none = Option.none := by
  constructor
  · have h := (calculate_sma_spec [10, 10, 20, 30] 2 3 (by norm_num) (by norm_num)).1
      (by norm_num)
    rw [h]
    norm_num [List.range_succ]
  · exact (calculate_sma_spec [10, 10, 20, 30] 2 0 (by norm_num) (by norm_num)).2
      (by norm_num)

/-- A comparison whose left operand is NaN is false. -/
theorem fle_none (y : Option ℚ) : fle Option.none y = false := by cases y <;> rfl

/-- A comparison whose left operand is NaN is false. -/
theorem fge_none (y : Option ℚ) : fge Option.none y = false := by cases y <;> rfl

/-- The last entry of the SMA column of a series of length `n + 1`. -/
theorem calculate_sma_getLast (closes : List ℚ) (w n : ℕ) (hn : closes.length = n + 1) :
    (calculate_sma closes w).getLast?.getD Option.none = sma_entry closes w n := by
  unfold calculate_sma
  rw [hn, List.range_succ, List.map_append, List.map_singleton, List.getLast?_concat]
  rfl

/-- The second-to-last entry of the SMA column of a series of length `n + 2`. -/
theorem calculate_sma_dropLast_getLast (closes : List ℚ) (w n : ℕ)
    (hn : closes.length = n + 2) :
    (calculate_sma closes w).dropLast.getLast?.getD Option.none = sma_entry closes w n := by
  unfold calculate_sma
  rw [hn, List.range_succ, List.map_append, List.map_singleton, List.dropLast_concat,
    List.range_succ, List.map_append, List.map_singleton, List.getLast?_concat]
  rfl

/-- C6: with at most window-many bars (window ≥ 2) fewer than 2 defined
trailing SMA samples exist and the cycle submits no order, whatever the
position; at exactly window-many bars the previous SMA sample is NaN and
both signal conditions are false (every comparison against NaN fails) —
even if the latest defined values look crossed. -/
theorem insufficient_trailing_samples_no_order (closes : List ℚ) (w : ℕ) (pos : ℚ)
    (hw : 2 ≤ w) (hlen : closes.length ≤ w) :
    sma_cycle closes w pos = Option.none ∧
    (closes.length = w →
      (calculate_sma closes w).dropLast.getLast?.getD Option.none = Option.none ∧
      sma_buy_signal closes.getLast? ((calculate_sma closes w).getLast?.getD Option.none)
        ((calculate_sma closes w).dropLast.getLast?.getD Option.none) = false ∧
      sma_sell_signal closes.getLast? ((calculate_sma closes w).getLast?.getD Option.none)
        ((calculate_sma closes w).dropLast.getLast?.getD Option.none) = false) := by
  rcases Nat.lt_or_ge closes.length w with hlt | hge
  · constructor
    · simp [sma_cycle, hlt]
    · intro hE
      omega
  · have hE : closes.length = w := le_antisymm hlen hge
    obtain ⟨n, rfl⟩ : ∃ n, w = n + 2 := ⟨w - 2, by omega⟩
    have hprev : (calculate_sma closes (n + 2)).dropLast.getLast?.getD Option.none =
        Option.none := by
      rw [calculate_sma_dropLast_getLast closes (n + 2) n hE]
      unfold sma_entry
      rw [if_neg (by omega)]
    have hbuy : sma_buy_signal closes.getLast?
        ((calculate_sma closes (n + 2)).getLast?.getD Option.none)
        ((calculate_sma closes (n + 2)).dropLast.getLast?.getD Option.none) = false := by
      rw [hprev]
      simp [sma_buy_signal, fle_none]
    have hsell : sma_sell_signal closes.getLast?
        ((calculate_sma closes (n + 2)).getLast?.getD Option.none)
        ((calculate_sma closes (n + 2)).dropLast.getLast?.getD Option.none) = false := by
      rw [hprev]
      simp [sma_sell_signal, fge_none]
    have hne : closes.isEmpty = false := by
      cases closes
      · simp at hE
      · rfl
    constructor
    · simp only [sma_cycle, hne, hE, lt_irrefl, if_false, Bool.false_eq_true, hbuy, hsell]
      simp [decide_order]
    · intro
      exact ⟨hprev, hbuy, hsell⟩

/-- Witness for C6: two bars with window 2 — the price 30 is above the
only defined SMA value 20, yet no signal fires and no order is placed. -/
theorem insufficient_trailing_samples_no_order_witness :
    sma_cycle [10, 30] 2 0 = Option.none ∧
    (([10, 30] : List ℚ).length = 2 →
      (calculate_sma [10, 30] 2).dropLast.getLast?.getD Option.none = Option.none ∧
      sma_buy_signal ([10, 30] : List ℚ).getLast?
        ((calculate_sma [10, 30] 2).getLast?.getD Option.none)
        ((calculate_sma [10, 30] 2).dropLast.getLast?.getD Option.none) = false ∧
      sma_sell_signal ([10, 30] : List ℚ).getLast?
        ((calculate_sma [10, 30] 2).getLast?.getD Option.none)
        ((calculate_sma [10, 30] 2).dropLast.getLast?.getD Option.none) = false) :=
  insufficient_trailing_samples_no_order [10, 30] 2 0 (by norm_num) (by simp)

/-- The seed-prefixed smoothed list is strictly increasing whenever the
remaining closes, prefixed by an upper bound `b` of the seed, are. -/
theorem emaRec_chain (a : ℚ) (ha0 : 0 < a) (ha1 : a ≤ 1) :
    ∀ (cs : List ℚ) (prev b : ℚ), prev ≤ b →
      List.Chain' (fun x y : ℚ => x < y) (b :: cs) →
      List.Chain' (fun x y : ℚ => x < y) (prev :: emaRec a prev cs) := by
  intro cs
  induction cs with
  | nil => intro prev b hpb hch; simp [emaRec]
  | cons c cs ih =>
    intro prev b hpb hch
    have hbc : b < c := (List.chain'_cons.mp hch).1
    have hcs : List.Chain' (fun x y : ℚ => x < y) (c :: cs) := (List.chain'_cons.mp hch).2
    have hpc : prev < c := lt_of_le_of_lt hpb hbc
    have hpe : prev < a * c + (1 - a) * prev := by nlinarith
    have hec : a * c + (1 - a) * prev ≤ c := by nlinarith
    have htail := ih (a * c + (1 - a) * prev) c hec hcs
    simp only [emaRec]
    exact List.chain'_cons.mpr ⟨hpe, htail⟩

/-- C9: for every strictly increasing close series and window `w ≥ 1`,
the EMA column is strictly increasing. -/
theorem ema_strict_mono (closes : List ℚ) (w : ℕ) (hw : 1 ≤ w)
    (hmono : List.Chain' (fun x y : ℚ => x < y) closes) :
    List.Chain' (fun x y : ℚ => x < y) (calculate_ema closes w) := by
  have ha0 : 0 < (2 : ℚ) / ((w : ℚ) + 1) := by positivity
  have ha1 : (2 : ℚ) / ((w : ℚ) + 1) ≤ 1 := by
    rw [div_le_one (by positivity)]
    have hcast : (1 : ℚ) ≤ (w : ℚ) := by exact_mod_cast hw
    linarith
  match closes, hmono with
  | [], _ => simp [calculate_ema]
  | c :: cs, hmono =>
    exact emaRec_chain (2 / ((w : ℚ) + 1)) ha0 ha1 cs c c le_rfl hmono

/-- Witness for C9 at closes `[1, 2, 4]` and window 2. -/
theorem ema_strict_mono_witness :
    List.Chain' (fun x y : ℚ => x < y) (calculate_ema [1, 2, 4] 2) :=
  ema_strict_mono [1, 2, 4] 2 (by norm_num) (by norm_num [List.chain'_cons])

end Algos
